import Mathlib

/-!
Shallow embedding of `main.go` of the gocat chunked HTTP downloader, and
verification of the specification's claims about it.

Network effects are modelled by oracles: a transport oracle maps the Range
header string of a request to the response it produces, a chunk-attempt
oracle maps an attempt index to the outcome of that `downloadChunk` call,
and a HEAD response models the probe.  Go `int64` values are modelled as
`Int`, byte slices as `List Nat`, Go `error` values as `Option String`
(`none` is Go's `nil` error).
-/

namespace Gocat

/-- A Go `error` value's message (`nil` is modelled by `Option.none` at use
sites, via `Option GoError` or `Except GoError`). -/
abbrev GoError := String

/-- A Go byte slice's contents. -/
abbrev Bytes := List Nat

/-! ## Capability probe: `checkHeaders` (main.go lines 22-40) -/

/-- The two headers of a HEAD response that `checkHeaders` reads.  A `none`
field models an absent header. -/
structure HeadResponse where
  acceptRanges : Option String
  contentLength : Option String
deriving DecidableEq

/-- Go's `http.Header.Get`: the empty string when the header is absent. -/
def headerGet : Option String → String
  | some v => v
  | none => ""

/-- Value of a nonempty string of decimal digits; `none` if the character
list is empty or holds a non-digit.  Models the digit loop of
`strconv.ParseInt(s, 10, 64)` (base 10, so no underscores are accepted). -/
def digitsVal : List Char → Option Nat
  | [] => none
  | cs => cs.foldlM (fun acc c => if c.isDigit then some (acc * 10 + (c.toNat - 48)) else none) 0

/-- Model of Go's `strconv.ParseInt(s, 10, 64)`: an optional sign followed
by at least one decimal digit, with the value required to fit in `int64`;
`none` models a non-`nil` error (syntax or range). -/
def parseInt64 (s : String) : Option Int :=
  let cs := s.toList
  let signed : Bool × List Char :=
    match cs with
    | '-' :: t => (true, t)
    | '+' :: t => (false, t)
    | _ => (false, cs)
  match digitsVal signed.2 with
  | none => none
  | some n =>
    let v : Int := if signed.1 then -(n : Int) else (n : Int)
    if -(2 ^ 63) ≤ v ∧ v ≤ 2 ^ 63 - 1 then some v else none

/-- `checkHeaders` (main.go lines 22-40), applied to the outcome of the
`http.Head` call (`Except.error` models a failed HEAD request, whose error
is returned as-is).  Requires `Accept-Ranges: bytes` exactly, then parses
`Content-Length` with `strconv.ParseInt`. -/
def checkHeaders (headResult : Except GoError HeadResponse) : Except GoError Int :=
  match headResult with
  | .error e => .error e
  | .ok resp =>
    if headerGet resp.acceptRanges ≠ "bytes" then
      .error "no supported Accept-Ranges found"
    else
      match parseInt64 (headerGet resp.contentLength) with
      | none => .error "strconv.ParseInt: parsing failed"
      | some contentLen => .ok contentLen

/-! ## Range fetch: `downloadChunk` (main.go lines 42-67) -/

/-- A GET response as `downloadChunk` observes it: the HTTP status code,
the body bytes that `io.ReadAll` obtains, and — when `readError` is
`some e` — a read failure hit after those bytes, making `io.ReadAll`
return `(bodyBytes, e)`. -/
structure GetResponse where
  status : Nat
  bodyBytes : Bytes
  readError : Option GoError
deriving DecidableEq

/-- `io.ReadAll(resp.Body)` (main.go line 61): the bytes read and the
error, if any, that ended the read. -/
def readAll (resp : GetResponse) : Bytes × Option GoError :=
  (resp.bodyBytes, resp.readError)

/-- The Range header string `fmt.Sprintf("bytes=%v-%v", offsetFrom,
offsetTo)` (main.go line 52). -/
def rangeStr (offsetFrom offsetTo : Int) : String :=
  "bytes=" ++ toString offsetFrom ++ "-" ++ toString offsetTo

/-- `downloadChunk` (main.go lines 42-67).  The transport oracle maps the
Range header of the issued request to the outcome of `client.Do`
(`Except.error` is a connection-level failure).  On a read error the
partial bytes are dropped and only the error is returned; note that the
response's `status` field is never consulted. -/
def downloadChunk (transport : String → Except GoError GetResponse)
    (offsetFrom offsetTo : Int) : Except GoError Bytes :=
  match transport (rangeStr offsetFrom offsetTo) with
  | .error e => .error e
  | .ok resp =>
    match readAll resp with
    | (_, some e) => .error e
    | (respBytes, none) => .ok respBytes

/-! ## Retrying fetch: `downloadChunkWithRetry` (main.go lines 69-90) -/

/-- The loop of `downloadChunkWithRetry` (main.go lines 74-88).  `attempt`
gives the outcome of the `downloadChunk` call at each attempt index; `i`
is the loop counter, `fuel` the number of loop iterations still allowed
(`MaxRetry - i`), and `resp`/`err` the current values of the named result
parameters.  The third component of the result counts how many attempts
were actually performed. -/
def retryLoop (attempt : Nat → Except GoError Bytes) :
    Nat → Nat → Option Bytes → Option GoError → Option Bytes × Option GoError × Nat
  | _, 0, resp, err => (resp, err, 0)
  | i, fuel + 1, _, _ =>
    match attempt i with
    | .ok b => (some b, none, 1)
    | .error e =>
      let rest := retryLoop attempt (i + 1) fuel none (some e)
      (rest.1, rest.2.1, rest.2.2 + 1)

/-- `downloadChunkWithRetry` (main.go lines 69-90) with `MaxRetry =
maxRetry`: runs the attempt loop starting from the zero values of the
named results `(resp, err) = (nil, nil)`.  A nonpositive `maxRetry` admits
zero iterations (`Int.toNat` is 0 there), as in Go's `for i := 0; i <
MaxRetry; i++`. -/
def downloadChunkWithRetry (maxRetry : Int) (attempt : Nat → Except GoError Bytes) :
    Option Bytes × Option GoError × Nat :=
  retryLoop attempt 0 maxRetry.toNat none none

/-! ## Chunk plan and download loop: `downloadAndWrite` (main.go lines 92-137) -/

/-- The next loop offset (main.go lines 108-111): `offsetTo := offset +
batchSize`, clamped to `contentLen`. -/
def nextOffset (contentLen batchSize offset : Int) : Int :=
  if offset + batchSize > contentLen then contentLen else offset + batchSize

lemma nextOffset_toNat_lt (contentLen batchSize offset : Int)
    (hB : 0 < batchSize) (ho : offset < contentLen) :
    (contentLen - nextOffset contentLen batchSize offset).toNat
      < (contentLen - offset).toNat := by
  unfold nextOffset
  split <;> omega

/-- The sequence of half-open ranges `[offset, offsetTo)` that the loop of
`downloadAndWrite` (main.go lines 107-134) traverses, starting at
`offset`.  The `0 < batchSize` conjunct in the guard is a termination
side-condition: for `batchSize ≤ 0` the Go loop never terminates (and for
`batchSize = 0` it is never reached, since `contentLen / batchSize` on
line 99 already crashes). -/
def chunkRanges (contentLen batchSize : Int) (offset : Int) : List (Int × Int) :=
  if h : 0 < batchSize ∧ offset < contentLen then
    (offset, nextOffset contentLen batchSize offset)
      :: chunkRanges contentLen batchSize (nextOffset contentLen batchSize offset)
  else
    []
termination_by (contentLen - offset).toNat
decreasing_by exact nextOffset_toNat_lt contentLen batchSize offset h.1 h.2

/-- `numChunks` (main.go lines 99-102): `contentLen / batchSize`,
incremented when `contentLen % batchSize > 0`.  Go's `int64` division and
remainder truncate toward zero, i.e. `Int.tdiv` / `Int.tmod`. -/
def numChunks (contentLen batchSize : Int) : Int :=
  if Int.tmod contentLen batchSize > 0 then
    Int.tdiv contentLen batchSize + 1
  else
    Int.tdiv contentLen batchSize

/-- Observable outcome of one `downloadAndWrite` call: the `(offsetFrom,
offsetTo)` argument pairs of its `downloadChunkWithRetry` calls in order,
the `(offset, bytes)` writes issued to the sink in order, the returned
error (`none` is `nil`), and whether the call crashed with a runtime
division-by-zero (modelling Go's division-by-zero run-time panic on line
99). -/
structure DownloadResult where
  fetchCalls : List (Int × Int)
  writes : List (Int × Bytes)
  error : Option GoError
  panicked : Bool
deriving DecidableEq

/-- Bytes received by the output sink from one `downloadAndWrite` call:
the concatenation of its writes in order. -/
def DownloadResult.sink (r : DownloadResult) : Bytes :=
  (r.writes.map Prod.snd).flatten

/-- The fetch-and-write loop of `downloadAndWrite` (main.go lines
107-134).  `fetchChunk` gives the `(resp, err)` result of
`downloadChunkWithRetry` for the offsets it is passed; on `err ≠ nil` the
loop returns the error (no write), otherwise `w.Write(resp)` appends the
bytes (`resp.getD []`: writing a `nil` slice writes nothing) and the loop
advances.  Termination guard as in `chunkRanges`. -/
def downloadLoop (contentLen batchSize : Int)
    (fetchChunk : Int → Int → Option Bytes × Option GoError) (offset : Int) :
    DownloadResult :=
  if h : 0 < batchSize ∧ offset < contentLen then
    match fetchChunk offset (nextOffset contentLen batchSize offset - 1) with
    | (_, some e) => ⟨[(offset, nextOffset contentLen batchSize offset - 1)], [], some e, false⟩
    | (resp, none) =>
      let rest :=
        downloadLoop contentLen batchSize fetchChunk (nextOffset contentLen batchSize offset)
      ⟨(offset, nextOffset contentLen batchSize offset - 1) :: rest.fetchCalls,
       (offset, resp.getD []) :: rest.writes, rest.error, rest.panicked⟩
  else
    ⟨[], [], none, false⟩
termination_by (contentLen - offset).toNat
decreasing_by exact nextOffset_toNat_lt contentLen batchSize offset h.1 h.2

/-- The `fetchChunk` function that `downloadAndWrite` actually uses
(main.go line 123): `downloadChunkWithRetry(client, url, offset,
offsetTo-1)`, with the per-range attempt oracle `oracle offsetFrom
offsetTo` standing for the chunk's successive `downloadChunk` outcomes. -/
def retryFetch (maxRetry : Int)
    (oracle : Int → Int → Nat → Except GoError Bytes) :
    Int → Int → Option Bytes × Option GoError :=
  fun offsetFrom offsetTo =>
    let r := downloadChunkWithRetry maxRetry (oracle offsetFrom offsetTo)
    (r.1, r.2.1)

/-- `downloadAndWrite` (main.go lines 92-137) with `BatchSizeInMB =
batchSizeInMB` and `MaxRetry = maxRetry`.  On a probe failure the error is
returned with nothing fetched or written.  `batchSize :=
int64(BatchSizeInMB) << 20`; when it is zero, `contentLen / batchSize`
(line 99) is an integer division by zero, a run-time crash, recorded by
`panicked := true`. -/
def downloadAndWrite (headResult : Except GoError HeadResponse)
    (batchSizeInMB maxRetry : Int)
    (oracle : Int → Int → Nat → Except GoError Bytes) : DownloadResult :=
  match checkHeaders headResult with
  | .error e => ⟨[], [], some e, false⟩
  | .ok contentLen =>
    let batchSize : Int := batchSizeInMB <<< 20
    if batchSize = 0 then
      ⟨[], [], none, true⟩
    else
      downloadLoop contentLen batchSize (retryFetch maxRetry oracle) 0

/-! ## Driver: the loop of `main` (main.go lines 189-193) -/

/-- The driver loop of `main` (main.go lines 189-193): each file is a HEAD
outcome plus an attempt oracle; `downloadAndWrite` is invoked per file in
list order and `log.Fatal` stops the run at the first failing file (a
crash also stops it). -/
def runAll (batchSizeInMB maxRetry : Int)
    (files : List (Except GoError HeadResponse × (Int → Int → Nat → Except GoError Bytes))) :
    List DownloadResult :=
  match files with
  | [] => []
  | f :: rest =>
    let r := downloadAndWrite f.1 batchSizeInMB maxRetry f.2
    if r.error.isSome || r.panicked then [r]
    else r :: runAll batchSizeInMB maxRetry rest

/-! ## Fetch oracles used by the claims -/

/-- The bytes of `body` in the inclusive index range `[offsetFrom,
offsetTo]` — what a correct range-serving origin returns for the wire
range `bytes=offsetFrom-offsetTo`. -/
def sliceIncl (body : Bytes) (offsetFrom offsetTo : Int) : Bytes :=
  (body.drop offsetFrom.toNat).take (offsetTo + 1 - offsetFrom).toNat

/-- Attempt oracle of a fault-free origin serving `body`: every attempt at
any range returns exactly that range's bytes of `body`. -/
def exactOracle (body : Bytes) : Int → Int → Nat → Except GoError Bytes :=
  fun offsetFrom offsetTo _ => .ok (sliceIncl body offsetFrom offsetTo)

/-! ## Lemmas about the retry loop -/

lemma retryLoop_allFail (attempt : Nat → Except GoError Bytes) (e : Nat → GoError)
    (hfail : ∀ j, attempt j = .error (e j)) :
    ∀ (f i : Nat) (r0 : Option Bytes) (er0 : Option GoError),
      retryLoop attempt i (f + 1) r0 er0 = (none, some (e (i + f)), f + 1) := by
  intro f
  induction f with
  | zero =>
    intro i r0 er0
    rw [retryLoop, hfail i]
    rfl
  | succ f ih =>
    intro i r0 er0
    rw [retryLoop, hfail i]
    simp only [ih (i + 1) none (some (e i))]
    have hidx : i + 1 + f = i + (f + 1) := by omega
    rw [hidx]

lemma retryLoop_succAt (attempt : Nat → Except GoError Bytes) (e : Nat → GoError)
    (K : Nat) (b : Bytes)
    (hfail : ∀ j, j < K → attempt j = .error (e j)) (hsucc : attempt K = .ok b) :
    ∀ (f i : Nat) (r0 : Option Bytes) (er0 : Option GoError), i ≤ K → K - i < f →
      retryLoop attempt i f r0 er0 = (some b, none, K - i + 1) := by
  intro f
  induction f with
  | zero => intro i r0 er0 hi hf; omega
  | succ f ih =>
    intro i r0 er0 hi hf
    by_cases hik : i = K
    · subst hik
      rw [retryLoop, hsucc]
      simp
    · have hiK : i < K := lt_of_le_of_ne hi hik
      rw [retryLoop, hfail i hiK]
      simp only [ih (i + 1) none (some (e i)) (by omega) (by omega)]
      simp only [Prod.mk.injEq, true_and]
      omega

/-! ## Lemmas about the chunk plan -/

lemma chunkRanges_nil (N B o : Int) (h : ¬(0 < B ∧ o < N)) :
    chunkRanges N B o = [] := by
  rw [chunkRanges]; simp [h]

lemma chunkRanges_cons (N B o : Int) (hB : 0 < B) (ho : o < N) :
    chunkRanges N B o =
      (o, nextOffset N B o) :: chunkRanges N B (nextOffset N B o) := by
  rw [chunkRanges]; simp [hB, ho]

lemma nextOffset_spec (N B o : Int) (hB : 0 < B) (ho : o < N) :
    o < nextOffset N B o ∧ nextOffset N B o ≤ N ∧
      (nextOffset N B o = o + B ∨ (nextOffset N B o = N ∧ N - o < B)) := by
  unfold nextOffset
  split <;> omega

lemma chunkRanges_bounds (N B : Int) : ∀ o, ∀ r ∈ chunkRanges N B o,
    o ≤ r.1 ∧ r.1 < r.2 ∧ r.2 ≤ N ∧ r.2 - r.1 ≤ B := by
  intro o
  induction o using chunkRanges.induct N B with
  | case1 o h ih =>
    rw [chunkRanges_cons N B o h.1 h.2]
    intro r hr
    have hno := nextOffset_spec N B o h.1 h.2
    rcases List.mem_cons.1 hr with h1 | h2
    · subst h1; dsimp only; omega
    · obtain ⟨ha, hb, hc, hd⟩ := ih r h2
      exact ⟨by omega, hb, hc, hd⟩
  | case2 o h =>
    rw [chunkRanges_nil N B o h]
    simp

lemma chunkRanges_head (N B o : Int) (hB : 0 < B) (ho : o < N) :
    (chunkRanges N B o).head? = some (o, nextOffset N B o) := by
  rw [chunkRanges_cons N B o hB ho]; rfl

lemma chunkRanges_chain (N B : Int) : ∀ o,
    List.Chain' (fun a b : Int × Int => a.2 = b.1) (chunkRanges N B o) := by
  intro o
  induction o using chunkRanges.induct N B with
  | case1 o h ih =>
    rw [chunkRanges_cons N B o h.1 h.2, List.chain'_cons']
    refine ⟨?_, ih⟩
    intro y hy
    by_cases ht : nextOffset N B o < N
    · rw [chunkRanges_head N B _ h.1 ht] at hy
      simp only [Option.mem_def, Option.some.injEq] at hy
      rw [← hy]
    · rw [chunkRanges_nil N B _ (by intro hc; exact ht hc.2)] at hy
      simp at hy
  | case2 o h =>
    rw [chunkRanges_nil N B o h]
    simp

lemma chunkRanges_fullLen (N B : Int) : ∀ o,
    List.Chain' (fun a _ : Int × Int => a.2 - a.1 = B) (chunkRanges N B o) := by
  intro o
  induction o using chunkRanges.induct N B with
  | case1 o h ih =>
    rw [chunkRanges_cons N B o h.1 h.2, List.chain'_cons']
    refine ⟨?_, ih⟩
    intro y hy
    by_cases ht : nextOffset N B o < N
    · have hno := nextOffset_spec N B o h.1 h.2
      dsimp only
      omega
    · rw [chunkRanges_nil N B _ (by intro hc; exact ht hc.2)] at hy
      simp at hy
  | case2 o h =>
    rw [chunkRanges_nil N B o h]
    simp

lemma chunkRanges_fstChain (N B : Int) : ∀ o,
    List.Chain' (fun a b : Int × Int => a.1 < b.1) (chunkRanges N B o) := by
  intro o
  induction o using chunkRanges.induct N B with
  | case1 o h ih =>
    rw [chunkRanges_cons N B o h.1 h.2, List.chain'_cons']
    refine ⟨?_, ih⟩
    intro y hy
    by_cases ht : nextOffset N B o < N
    · rw [chunkRanges_head N B _ h.1 ht] at hy
      simp only [Option.mem_def, Option.some.injEq] at hy
      rw [← hy]
      exact (nextOffset_spec N B o h.1 h.2).1
    · rw [chunkRanges_nil N B _ (by intro hc; exact ht hc.2)] at hy
      simp at hy
  | case2 o h =>
    rw [chunkRanges_nil N B o h]
    simp

lemma chunkRanges_pairwise (N B : Int) : ∀ o,
    List.Pairwise (fun a b : Int × Int => a.2 ≤ b.1) (chunkRanges N B o) := by
  intro o
  induction o using chunkRanges.induct N B with
  | case1 o h ih =>
    rw [chunkRanges_cons N B o h.1 h.2, List.pairwise_cons]
    refine ⟨?_, ih⟩
    intro r hr
    exact (chunkRanges_bounds N B _ r hr).1
  | case2 o h =>
    rw [chunkRanges_nil N B o h]
    simp

lemma chunkRanges_cover (N B : Int) (hB : 0 < B) (x : Int) : ∀ o,
    (∃ r ∈ chunkRanges N B o, r.1 ≤ x ∧ x < r.2) ↔ o ≤ x ∧ x < N := by
  intro o
  induction o using chunkRanges.induct N B with
  | case1 o h ih =>
    rw [chunkRanges_cons N B o h.1 h.2]
    have hno := nextOffset_spec N B o h.1 h.2
    constructor
    · rintro ⟨r, hr, hx1, hx2⟩
      rcases List.mem_cons.1 hr with h1 | h2
      · subst h1; dsimp only at hx1 hx2; omega
      · have := ih.mp ⟨r, h2, hx1, hx2⟩
        omega
    · rintro ⟨hx1, hx2⟩
      by_cases hx : x < nextOffset N B o
      · exact ⟨(o, nextOffset N B o), List.mem_cons_self _ _, hx1, hx⟩
      · obtain ⟨r, hm, hr1, hr2⟩ := ih.mpr ⟨by omega, hx2⟩
        exact ⟨r, List.mem_cons_of_mem _ hm, hr1, hr2⟩
  | case2 o h =>
    rw [chunkRanges_nil N B o h]
    simp only [List.not_mem_nil, false_and, exists_const, false_iff]
    omega

lemma ceilDiv_step (m b : Nat) (hb : 0 < b) (hm : 0 < m) :
    (m + b - 1) / b = (m - b + b - 1) / b + 1 := by
  rcases le_or_lt m b with hmb | hmb
  · have h1 : m + b - 1 = (m - 1) + b := by omega
    have h2 : m - b + b - 1 = b - 1 := by omega
    rw [h1, h2, Nat.add_div_right _ hb, Nat.div_eq_of_lt (by omega),
      Nat.div_eq_of_lt (by omega)]
  · have h1 : m + b - 1 = (m - b + b - 1) + b := by omega
    rw [h1, Nat.add_div_right _ hb]

lemma chunkRanges_length (N B : Int) (hB : 0 < B) : ∀ o,
    (chunkRanges N B o).length = ((N - o).toNat + B.toNat - 1) / B.toNat := by
  intro o
  induction o using chunkRanges.induct N B with
  | case1 o h ih =>
    rw [chunkRanges_cons N B o h.1 h.2]
    simp only [List.length_cons, ih]
    have hno := nextOffset_spec N B o h.1 h.2
    have hm : (N - nextOffset N B o).toNat = (N - o).toNat - B.toNat := by omega
    rw [hm]
    exact (ceilDiv_step (N - o).toNat B.toNat (by omega) (by omega)).symm
  | case2 o h =>
    rw [chunkRanges_nil N B o h]
    have h0 : (N - o).toNat = 0 := by omega
    rw [h0, List.length_nil, Nat.zero_add, Nat.div_eq_of_lt (by omega)]

lemma ceilDiv_as_floor (m b : Nat) (hb : 0 < b) :
    (m + b - 1) / b = (if 0 < m % b then m / b + 1 else m / b) := by
  have hdm := Nat.div_add_mod m b
  by_cases hr : m % b = 0
  · rw [if_neg (by omega)]
    have h1 : m + b - 1 = b * (m / b) + (b - 1) := by omega
    rw [h1, Nat.mul_add_div hb, Nat.div_eq_of_lt (show b - 1 < b by omega), Nat.add_zero]
  · have hlt : m % b < b := Nat.mod_lt _ hb
    rw [if_pos (by omega)]
    have hb2 : b * (m / b + 1) = b * (m / b) + b := by ring
    have h1 : m + b - 1 = b * (m / b + 1) + (m % b - 1) := by omega
    rw [h1, Nat.mul_add_div hb, Nat.div_eq_of_lt (show m % b - 1 < b by omega), Nat.add_zero]

lemma numChunks_eq_ceil (N B : Int) (hN : 0 ≤ N) (hB : 0 < B) :
    numChunks N B = ((N.toNat + B.toNat - 1) / B.toNat : Nat) := by
  obtain ⟨m, rfl⟩ : ∃ m : Nat, N = (m : Int) := ⟨N.toNat, by omega⟩
  obtain ⟨b, rfl⟩ : ∃ bn : Nat, B = (bn : Int) := ⟨B.toNat, by omega⟩
  have hb : 0 < b := by exact_mod_cast hB
  unfold numChunks
  rw [← Int.ofNat_tmod, ← Int.ofNat_tdiv, Int.toNat_natCast, Int.toNat_natCast,
    ceilDiv_as_floor m b hb]
  by_cases hr : 0 < m % b
  · rw [if_pos (by exact_mod_cast hr), if_pos hr]
    push_cast
    ring
  · rw [if_neg (by exact_mod_cast hr), if_neg hr]

/-! ## Lemmas about the download loop -/

lemma downloadLoop_nil (N B : Int) (fetchChunk : Int → Int → Option Bytes × Option GoError)
    (o : Int) (h : ¬(0 < B ∧ o < N)) :
    downloadLoop N B fetchChunk o = ⟨[], [], none, false⟩ := by
  rw [downloadLoop, dif_neg h]

lemma downloadLoop_err (N B : Int) (fetchChunk : Int → Int → Option Bytes × Option GoError)
    (o : Int) (h : 0 < B ∧ o < N) (r0 : Option Bytes) (e : GoError)
    (heq : fetchChunk o (nextOffset N B o - 1) = (r0, some e)) :
    downloadLoop N B fetchChunk o = ⟨[(o, nextOffset N B o - 1)], [], some e, false⟩ := by
  rw [downloadLoop, dif_pos h, heq]

lemma downloadLoop_ok (N B : Int) (fetchChunk : Int → Int → Option Bytes × Option GoError)
    (o : Int) (h : 0 < B ∧ o < N) (resp : Option Bytes)
    (heq : fetchChunk o (nextOffset N B o - 1) = (resp, none)) :
    downloadLoop N B fetchChunk o =
      ⟨(o, nextOffset N B o - 1)
          :: (downloadLoop N B fetchChunk (nextOffset N B o)).fetchCalls,
       (o, resp.getD []) :: (downloadLoop N B fetchChunk (nextOffset N B o)).writes,
       (downloadLoop N B fetchChunk (nextOffset N B o)).error,
       (downloadLoop N B fetchChunk (nextOffset N B o)).panicked⟩ := by
  rw [downloadLoop, dif_pos h, heq]

lemma downloadLoop_noErr (N B : Int) (fetchChunk : Int → Int → Option Bytes × Option GoError)
    (hok : ∀ f t, (fetchChunk f t).2 = none) : ∀ o,
    downloadLoop N B fetchChunk o =
      ⟨(chunkRanges N B o).map (fun r => (r.1, r.2 - 1)),
       (chunkRanges N B o).map (fun r => (r.1, ((fetchChunk r.1 (r.2 - 1)).1).getD [])),
       none, false⟩ := by
  intro o
  induction o using downloadLoop.induct N B fetchChunk with
  | case1 o h r0 e heq =>
    have hc := hok o (nextOffset N B o - 1)
    rw [heq] at hc
    simp at hc
  | case2 o h resp heq ih =>
    rw [downloadLoop_ok N B fetchChunk o h resp heq, ih, chunkRanges_cons N B o h.1 h.2]
    simp [heq]
  | case3 o h =>
    rw [downloadLoop_nil N B fetchChunk o h, chunkRanges_nil N B o h]
    rfl

lemma downloadLoop_calls_planned (N B : Int)
    (fetchChunk : Int → Int → Option Bytes × Option GoError) : ∀ o,
    ∀ p ∈ (downloadLoop N B fetchChunk o).fetchCalls,
      ∃ r ∈ chunkRanges N B o, p = (r.1, r.2 - 1) := by
  intro o
  induction o using downloadLoop.induct N B fetchChunk with
  | case1 o h r0 e heq =>
    rw [downloadLoop_err N B fetchChunk o h r0 e heq]
    intro p hp
    simp only [List.mem_singleton] at hp
    refine ⟨(o, nextOffset N B o), ?_, by rw [hp]⟩
    rw [chunkRanges_cons N B o h.1 h.2]
    exact List.mem_cons_self _ _
  | case2 o h resp heq ih =>
    rw [downloadLoop_ok N B fetchChunk o h resp heq]
    intro p hp
    rcases List.mem_cons.1 hp with h1 | h2
    · refine ⟨(o, nextOffset N B o), ?_, by rw [h1]⟩
      rw [chunkRanges_cons N B o h.1 h.2]
      exact List.mem_cons_self _ _
    · obtain ⟨r, hm, hpr⟩ := ih p h2
      refine ⟨r, ?_, hpr⟩
      rw [chunkRanges_cons N B o h.1 h.2]
      exact List.mem_cons_of_mem _ hm
  | case3 o h =>
    rw [downloadLoop_nil N B fetchChunk o h]
    intro p hp
    simp at hp

lemma downloadLoop_no_crash (N B : Int)
    (fetchChunk : Int → Int → Option Bytes × Option GoError) : ∀ o,
    (downloadLoop N B fetchChunk o).panicked = false := by
  intro o
  induction o using downloadLoop.induct N B fetchChunk with
  | case1 o h r0 e heq => rw [downloadLoop_err N B fetchChunk o h r0 e heq]
  | case2 o h resp heq ih => rw [downloadLoop_ok N B fetchChunk o h resp heq]; exact ih
  | case3 o h => rw [downloadLoop_nil N B fetchChunk o h]

/-! ## Composition lemmas for a fault-free origin -/

lemma chunkRanges_slices_flatten (body : Bytes) (B : Int) (hB : 0 < B) : ∀ o, 0 ≤ o →
    ((chunkRanges (body.length : Int) B o).map
        (fun r => sliceIncl body r.1 (r.2 - 1))).flatten = body.drop o.toNat := by
  intro o
  induction o using chunkRanges.induct (body.length : Int) B with
  | case1 o h ih =>
    intro ho
    have hno := nextOffset_spec _ B o h.1 h.2
    rw [chunkRanges_cons _ B o h.1 h.2]
    simp only [List.map_cons, List.flatten_cons]
    rw [ih (by omega)]
    show sliceIncl body o (nextOffset (body.length : Int) B o - 1) ++ _ = _
    unfold sliceIncl
    have h1 : nextOffset (body.length : Int) B o - 1 + 1 - o
        = nextOffset (body.length : Int) B o - o := by ring
    rw [h1]
    have hdrop : (body.drop o.toNat).drop (nextOffset (body.length : Int) B o - o).toNat
        = body.drop (nextOffset (body.length : Int) B o).toNat := by
      rw [List.drop_drop]
      congr 1
      omega
    rw [← hdrop, List.take_append_drop]
  | case2 o h =>
    intro ho
    rw [chunkRanges_nil _ B o h]
    simp only [List.map_nil, List.flatten_nil]
    exact (List.drop_eq_nil_of_le (by omega)).symm

lemma retryLoop_okFirst (attempt : Nat → Except GoError Bytes) (b : Bytes)
    (i fuel : Nat) (r0 : Option Bytes) (er0 : Option GoError)
    (hfuel : 0 < fuel) (hok : attempt i = .ok b) :
    retryLoop attempt i fuel r0 er0 = (some b, none, 1) := by
  obtain ⟨f, rfl⟩ : ∃ f, fuel = f + 1 := ⟨fuel - 1, by omega⟩
  rw [retryLoop, hok]

lemma retryFetch_exact (maxRetry : Int) (hR : 1 ≤ maxRetry) (body : Bytes) :
    ∀ f t, retryFetch maxRetry (exactOracle body) f t = (some (sliceIncl body f t), none) := by
  intro f t
  unfold retryFetch downloadChunkWithRetry
  rw [retryLoop_okFirst (exactOracle body f t) (sliceIncl body f t) 0 maxRetry.toNat
    none none (by omega) rfl]

lemma shiftLeft20_pos (b : Int) (hb : 0 < b) : 0 < b <<< (20 : Int) := by
  have h20 : (20 : Int) = ((20 : Nat) : Int) := by norm_num
  rw [h20, Int.shiftLeft_eq_mul_pow]
  positivity

lemma downloadAndWrite_exact_eq (h : Except GoError HeadResponse) (body : Bytes)
    (batchSizeInMB maxRetry : Int) (hB : 0 < batchSizeInMB) (hR : 1 ≤ maxRetry)
    (hprobe : checkHeaders h = .ok (body.length : Int)) :
    downloadAndWrite h batchSizeInMB maxRetry (exactOracle body) =
      ⟨(chunkRanges (body.length : Int) (batchSizeInMB <<< 20) 0).map
         (fun r => (r.1, r.2 - 1)),
       (chunkRanges (body.length : Int) (batchSizeInMB <<< 20) 0).map
         (fun r => (r.1, sliceIncl body r.1 (r.2 - 1))),
       none, false⟩ := by
  unfold downloadAndWrite
  rw [hprobe]
  have hBpos := shiftLeft20_pos batchSizeInMB hB
  dsimp only
  rw [if_neg (by omega)]
  rw [downloadLoop_noErr _ _ _ (fun f t => by rw [retryFetch_exact maxRetry hR body f t])]
  congr 1
  apply List.map_congr_left
  intro r hr
  rw [retryFetch_exact maxRetry hR body]
  rfl

/-! ## The claims -/

/-- Claim C1: for every total size ≥ 0 and batch size > 0, the chunk plan
traversed by `downloadAndWrite` consists of half-open ranges that are
nonempty, of length at most the batch size, contiguous, non-overlapping,
cover exactly `[0, total_size)`, every non-final range has length exactly
the batch size (only the last may be shorter), and the number of ranges
equals the code's `numChunks` value, which is the ceiling of
`total_size / batch_size` and is zero exactly when the total size is
zero. -/
theorem chunkPlan_correct (contentLen batchSize : Int)
    (hN : 0 ≤ contentLen) (hB : 0 < batchSize) :
    (∀ r ∈ chunkRanges contentLen batchSize 0, r.1 < r.2 ∧ r.2 - r.1 ≤ batchSize) ∧
    List.Chain' (fun a b : Int × Int => a.2 = b.1) (chunkRanges contentLen batchSize 0) ∧
    List.Pairwise (fun a b : Int × Int => a.2 ≤ b.1) (chunkRanges contentLen batchSize 0) ∧
    (∀ x : Int, (∃ r ∈ chunkRanges contentLen batchSize 0, r.1 ≤ x ∧ x < r.2) ↔
      0 ≤ x ∧ x < contentLen) ∧
    List.Chain' (fun a _ : Int × Int => a.2 - a.1 = batchSize)
      (chunkRanges contentLen batchSize 0) ∧
    ((chunkRanges contentLen batchSize 0).length : Int) = numChunks contentLen batchSize ∧
    (chunkRanges contentLen batchSize 0).length
      = (contentLen.toNat + batchSize.toNat - 1) / batchSize.toNat ∧
    ((chunkRanges contentLen batchSize 0).length = 0 ↔ contentLen = 0) := by
  have hlen := chunkRanges_length contentLen batchSize hB 0
  rw [sub_zero] at hlen
  have hnum := numChunks_eq_ceil contentLen batchSize hN hB
  refine ⟨?_, chunkRanges_chain _ _ 0, chunkRanges_pairwise _ _ 0, ?_,
    chunkRanges_fullLen _ _ 0, ?_, hlen, ?_⟩
  · intro r hr
    have hb := chunkRanges_bounds contentLen batchSize 0 r hr
    exact ⟨hb.2.1, hb.2.2.2⟩
  · intro x
    exact chunkRanges_cover contentLen batchSize hB x 0
  · rw [hlen, hnum]
  · rw [List.length_eq_zero]
    constructor
    · intro hnil
      by_contra hne
      have hpos : 0 < contentLen := by omega
      rw [chunkRanges_cons contentLen batchSize 0 hB hpos] at hnil
      exact List.cons_ne_nil _ _ hnil
    · intro h0
      exact chunkRanges_nil _ _ _ (by omega)

/-- Witness for C1 at `contentLen = 5`, `batchSize = 2`: the chunk count
equals the code's `numChunks` computation. -/
theorem chunkPlan_correct_witness :
    (0 : Int) ≤ 5 ∧ (0 : Int) < 2 ∧
      ((chunkRanges 5 2 0).length : Int) = numChunks 5 2 :=
  ⟨by norm_num, by norm_num,
    (chunkPlan_correct 5 2 (by norm_num) (by norm_num)).2.2.2.2.2.1⟩

/-- Claim C3: with `max_attempts = MaxRetry ≥ 1` and an underlying fetch
failing at every attempt, `downloadChunkWithRetry` performs exactly
`MaxRetry` attempts and returns the failure of the final attempt (with a
nil byte slice). -/
theorem retry_allFail_attempts (maxRetry : Int) (hR : 1 ≤ maxRetry)
    (attempt : Nat → Except GoError Bytes) (e : Nat → GoError)
    (hfail : ∀ j, attempt j = .error (e j)) :
    downloadChunkWithRetry maxRetry attempt
      = (none, some (e (maxRetry.toNat - 1)), maxRetry.toNat) ∧
    (maxRetry.toNat : Int) = maxRetry := by
  obtain ⟨f, hf⟩ : ∃ f, maxRetry.toNat = f + 1 := ⟨maxRetry.toNat - 1, by omega⟩
  unfold downloadChunkWithRetry
  rw [hf, retryLoop_allFail attempt e hfail f 0 none none]
  have hidx : 0 + f = f + 1 - 1 := by omega
  rw [hidx]
  exact ⟨rfl, by omega⟩

/-- Witness for C3 at `MaxRetry = 3` and an always-failing fetch. -/
theorem retry_allFail_attempts_witness :
    (1 : Int) ≤ 3 ∧
      downloadChunkWithRetry 3 (fun _ => .error "boom") = (none, some "boom", 3) :=
  ⟨by norm_num,
    (retry_allFail_attempts 3 (by norm_num) (fun _ => .error "boom")
      (fun _ => "boom") (fun _ => rfl)).1⟩

/-- Claim C4: with `0 ≤ k < MaxRetry` and an underlying fetch failing on
the first `k` attempts then succeeding, `downloadChunkWithRetry` performs
exactly `k + 1` attempts and returns the successful bytes with a nil
error. -/
theorem retry_succeedsAfterK (maxRetry : Int) (k : Nat) (hk : (k : Int) < maxRetry)
    (attempt : Nat → Except GoError Bytes) (e : Nat → GoError) (b : Bytes)
    (hfail : ∀ j, j < k → attempt j = .error (e j)) (hsucc : attempt k = .ok b) :
    downloadChunkWithRetry maxRetry attempt = (some b, none, k + 1) := by
  unfold downloadChunkWithRetry
  rw [retryLoop_succAt attempt e k b hfail hsucc maxRetry.toNat 0 none none
    (by omega) (by omega)]
  have hidx : k - 0 = k := by omega
  rw [hidx]

/-- Witness for C4 at `MaxRetry = 3`, `k = 1`: one failure then success,
two attempts total. -/
theorem retry_succeedsAfterK_witness :
    ((1 : Nat) : Int) < 3 ∧
      downloadChunkWithRetry 3
          (fun i => if i = 0 then .error "x" else .ok [7]) = (some [7], none, 2) :=
  ⟨by norm_num,
    retry_succeedsAfterK 3 1 (by norm_num)
      (fun i => if i = 0 then .error "x" else .ok [7]) (fun _ => "x") [7]
      (fun j hj => by
        have hj0 : j = 0 := by omega
        subst hj0
        rfl)
      rfl⟩

/-- Claim C5 counterexample: a transport-level success carrying the
non-success HTTP status 404 whose body reads cleanly is returned by
`downloadChunk` as the chunk's bytes with a nil error — contrary to the
claim, a non-success status does not produce an error. -/
theorem downloadChunk_status_cex :
    downloadChunk (fun _ => .ok ⟨404, [1, 2, 3], none⟩) 0 2 = .ok [1, 2, 3] := rfl

/-- Claim C5 (amended): `downloadChunk` fails when the connection fails or
when reading the body fails, and in the body-read-failure case the
partial bytes are discarded (only the error is returned); it does not
inspect the HTTP status code: any transport-level success yields the
body bytes with a nil error regardless of status. -/
theorem downloadChunk_errors_amended (transport : String → Except GoError GetResponse)
    (offsetFrom offsetTo : Int) :
    (∀ e, transport (rangeStr offsetFrom offsetTo) = .error e →
        downloadChunk transport offsetFrom offsetTo = .error e) ∧
    (∀ resp e, transport (rangeStr offsetFrom offsetTo) = .ok resp →
        resp.readError = some e →
        downloadChunk transport offsetFrom offsetTo = .error e) ∧
    (∀ resp, transport (rangeStr offsetFrom offsetTo) = .ok resp →
        resp.readError = none →
        downloadChunk transport offsetFrom offsetTo = .ok resp.bodyBytes) := by
  refine ⟨?_, ?_, ?_⟩
  · intro e he
    unfold downloadChunk
    rw [he]
  · intro resp e hok hre
    unfold downloadChunk readAll
    rw [hok]
    dsimp only
    rw [hre]
  · intro resp hok hre
    unfold downloadChunk readAll
    rw [hok]
    dsimp only
    rw [hre]

/-- Witness for the amended C5: a connection failure propagates, and a
body-read failure after two bytes discards those bytes and returns only
the error. -/
theorem downloadChunk_errors_amended_witness :
    downloadChunk (fun _ => .error "connection refused") 0 2 = .error "connection refused" ∧
    downloadChunk (fun _ => .ok ⟨200, [9, 9], some "unexpected EOF"⟩) 0 2
      = .error "unexpected EOF" :=
  ⟨(downloadChunk_errors_amended (fun _ => .error "connection refused") 0 2).1
      "connection refused" rfl,
    (downloadChunk_errors_amended (fun _ => .ok ⟨200, [9, 9], some "unexpected EOF"⟩) 0 2).2.1
      ⟨200, [9, 9], some "unexpected EOF"⟩ "unexpected EOF" rfl rfl⟩

/-- Claim C6: every range request that `downloadAndWrite` issues is for a
planned half-open chunk `[from, to)` (with `from < to`), carries the
argument pair `(from, to - 1)`, and its Range header is exactly the
string `bytes=<from>-<to-1>` — end-inclusive on the wire. -/
theorem rangeHeader_endInclusive (h : Except GoError HeadResponse)
    (contentLen batchSizeInMB maxRetry : Int)
    (oracle : Int → Int → Nat → Except GoError Bytes)
    (hprobe : checkHeaders h = .ok contentLen) :
    ∀ p ∈ (downloadAndWrite h batchSizeInMB maxRetry oracle).fetchCalls,
      ∃ r ∈ chunkRanges contentLen (batchSizeInMB <<< 20) 0,
        r.1 < r.2 ∧ p = (r.1, r.2 - 1) ∧
        rangeStr p.1 p.2 = "bytes=" ++ toString r.1 ++ "-" ++ toString (r.2 - 1) := by
  intro p hp
  unfold downloadAndWrite at hp
  rw [hprobe] at hp
  dsimp only at hp
  by_cases hB : (batchSizeInMB <<< 20 : Int) = 0
  · rw [if_pos hB] at hp
    simp at hp
  · rw [if_neg hB] at hp
    obtain ⟨r, hm, hpr⟩ := downloadLoop_calls_planned _ _ _ 0 p hp
    refine ⟨r, hm, (chunkRanges_bounds _ _ 0 r hm).2.1, hpr, ?_⟩
    rw [hpr]
    rfl

/-- Witness for C6 on a 5-byte resource with 1 MB batches: every issued
request is a planned chunk's `(from, to-1)` pair with the end-inclusive
header string. -/
theorem rangeHeader_endInclusive_witness :
    checkHeaders (.ok ⟨some "bytes", some "5"⟩) = .ok 5 ∧
    ∀ p ∈ (downloadAndWrite (.ok ⟨some "bytes", some "5"⟩) 1 1
        (fun _ _ _ => .error "x")).fetchCalls,
      ∃ r ∈ chunkRanges 5 ((1 : Int) <<< 20) 0,
        r.1 < r.2 ∧ p = (r.1, r.2 - 1) ∧
        rangeStr p.1 p.2 = "bytes=" ++ toString r.1 ++ "-" ++ toString (r.2 - 1) :=
  ⟨rfl, rangeHeader_endInclusive (.ok ⟨some "bytes", some "5"⟩) 5 1 1
    (fun _ _ _ => .error "x") rfl⟩

/-- Claim C7 counterexample: the size header value `"-5"` parses (Go's
`strconv.ParseInt` accepts a leading minus sign), so `checkHeaders`
returns content length `-5` with a nil error instead of failing; the
download then issues no range requests and reports *no* error. -/
theorem negativeSize_accepted_cex :
    checkHeaders (.ok ⟨some "bytes", some "-5"⟩) = .ok (-5) ∧
    downloadAndWrite (.ok ⟨some "bytes", some "-5"⟩) 16 100 (fun _ _ _ => .error "x")
      = ⟨[], [], none, false⟩ := by
  refine ⟨by rfl, ?_⟩
  unfold downloadAndWrite
  rw [show checkHeaders (.ok ⟨some "bytes", some "-5"⟩) = .ok (-5) from rfl]
  dsimp only
  rw [if_neg (by decide)]
  exact downloadLoop_nil _ _ _ 0 (by decide)

/-- Claim C7 (amended): when the size header is missing or its value is
not parseable as an `int64` (empty, non-numeric, or out of range), the
probe fails and the download aborts with that error and no range
requests; but a value parseable as a *negative* integer is accepted with
a nil error, and the download then issues no range requests, writes
nothing, and reports success. -/
theorem contentLength_parse_amended (r : HeadResponse)
    (har : headerGet r.acceptRanges = "bytes") :
    (parseInt64 (headerGet r.contentLength) = none →
      checkHeaders (.ok r) = .error "strconv.ParseInt: parsing failed" ∧
      ∀ (batchSizeInMB maxRetry : Int) (oracle : Int → Int → Nat → Except GoError Bytes),
        downloadAndWrite (.ok r) batchSizeInMB maxRetry oracle
          = ⟨[], [], some "strconv.ParseInt: parsing failed", false⟩) ∧
    (∀ n : Int, n < 0 → parseInt64 (headerGet r.contentLength) = some n →
      checkHeaders (.ok r) = .ok n ∧
      ∀ (batchSizeInMB maxRetry : Int) (oracle : Int → Int → Nat → Except GoError Bytes),
        (batchSizeInMB <<< 20 : Int) ≠ 0 →
        downloadAndWrite (.ok r) batchSizeInMB maxRetry oracle
          = ⟨[], [], none, false⟩) := by
  constructor
  · intro hparse
    have hch : checkHeaders (.ok r) = .error "strconv.ParseInt: parsing failed" := by
      unfold checkHeaders
      dsimp only
      rw [if_neg (not_not_intro har), hparse]
    refine ⟨hch, ?_⟩
    intro batchSizeInMB maxRetry oracle
    unfold downloadAndWrite
    rw [hch]
  · intro n hn hparse
    have hch : checkHeaders (.ok r) = .ok n := by
      unfold checkHeaders
      dsimp only
      rw [if_neg (not_not_intro har), hparse]
    refine ⟨hch, ?_⟩
    intro batchSizeInMB maxRetry oracle hBne
    unfold downloadAndWrite
    rw [hch]
    dsimp only
    rw [if_neg hBne]
    exact downloadLoop_nil _ _ _ 0 (by omega)

/-- Witness for the amended C7: a malformed size `"12a"` is a hard
failure, while the negative size `"-7"` is accepted and yields a
successful empty download. -/
theorem contentLength_parse_amended_witness :
    (headerGet (some "bytes") = "bytes" ∧ parseInt64 (headerGet (some "12a")) = none ∧
      checkHeaders (.ok ⟨some "bytes", some "12a"⟩)
        = .error "strconv.ParseInt: parsing failed") ∧
    (parseInt64 (headerGet (some "-7")) = some (-7) ∧
      downloadAndWrite (.ok ⟨some "bytes", some "-7"⟩) 1 100 (fun _ _ _ => .error "x")
        = ⟨[], [], none, false⟩) :=
  ⟨⟨rfl, rfl,
    ((contentLength_parse_amended ⟨some "bytes", some "12a"⟩ rfl).1 rfl).1⟩,
   ⟨rfl,
    ((contentLength_parse_amended ⟨some "bytes", some "-7"⟩ rfl).2 (-7) (by norm_num)
      rfl).2 1 100 (fun _ _ _ => .error "x") (by decide)⟩⟩

/-- Claim C8: a probe response whose `Accept-Ranges` header is absent (the
header lookup yields the empty string) or differs from the literal
`bytes` makes `checkHeaders` fail, and `downloadAndWrite` then returns
that error at once: no range requests are issued and nothing is
written. -/
theorem acceptRanges_required (r : HeadResponse)
    (har : headerGet r.acceptRanges ≠ "bytes") :
    checkHeaders (.ok r) = .error "no supported Accept-Ranges found" ∧
    ∀ (batchSizeInMB maxRetry : Int) (oracle : Int → Int → Nat → Except GoError Bytes),
      downloadAndWrite (.ok r) batchSizeInMB maxRetry oracle
        = ⟨[], [], some "no supported Accept-Ranges found", false⟩ := by
  have hch : checkHeaders (.ok r) = .error "no supported Accept-Ranges found" := by
    unfold checkHeaders
    dsimp only
    rw [if_pos har]
  refine ⟨hch, ?_⟩
  intro batchSizeInMB maxRetry oracle
  unfold downloadAndWrite
  rw [hch]

/-- Witness for C8: an absent `Accept-Ranges` header aborts the download
with zero fetch calls. -/
theorem acceptRanges_required_witness :
    headerGet (none : Option String) ≠ "bytes" ∧
    downloadAndWrite (.ok ⟨none, some "100"⟩) 16 100 (fun _ _ _ => .error "x")
      = ⟨[], [], some "no supported Accept-Ranges found", false⟩ :=
  ⟨by decide,
    (acceptRanges_required ⟨none, some "100"⟩ (by decide)).2 16 100
      (fun _ _ _ => .error "x")⟩

/-- Claim C9: with `MaxRetry ≤ 0` the retry loop body never runs, so
`downloadChunkWithRetry` performs zero attempts and returns nil bytes
with a nil error; `downloadAndWrite` then treats every chunk as fetched:
it walks the whole chunk plan, writes an empty byte string for each
chunk, and returns a nil error. -/
theorem maxRetry_nonpos_silent (maxRetry : Int) (hmr : maxRetry ≤ 0) :
    (∀ attempt : Nat → Except GoError Bytes,
      downloadChunkWithRetry maxRetry attempt = (none, none, 0)) ∧
    (∀ (h : Except GoError HeadResponse) (contentLen batchSizeInMB : Int)
        (oracle : Int → Int → Nat → Except GoError Bytes),
      checkHeaders h = .ok contentLen → 0 < batchSizeInMB →
      downloadAndWrite h batchSizeInMB maxRetry oracle =
        ⟨(chunkRanges contentLen (batchSizeInMB <<< 20) 0).map (fun r => (r.1, r.2 - 1)),
         (chunkRanges contentLen (batchSizeInMB <<< 20) 0).map (fun r => (r.1, ([] : Bytes))),
         none, false⟩ ∧
      DownloadResult.sink (downloadAndWrite h batchSizeInMB maxRetry oracle) = []) := by
  have hretry : ∀ attempt : Nat → Except GoError Bytes,
      downloadChunkWithRetry maxRetry attempt = (none, none, 0) := by
    intro attempt
    unfold downloadChunkWithRetry
    have h0 : maxRetry.toNat = 0 := by omega
    rw [h0, retryLoop]
  refine ⟨hretry, ?_⟩
  intro h contentLen batchSizeInMB oracle hprobe hB
  have hfetch : ∀ f t, retryFetch maxRetry oracle f t = (none, none) := by
    intro f t
    unfold retryFetch
    rw [hretry]
  have heq : downloadAndWrite h batchSizeInMB maxRetry oracle =
      ⟨(chunkRanges contentLen (batchSizeInMB <<< 20) 0).map (fun r => (r.1, r.2 - 1)),
       (chunkRanges contentLen (batchSizeInMB <<< 20) 0).map (fun r => (r.1, ([] : Bytes))),
       none, false⟩ := by
    unfold downloadAndWrite
    rw [hprobe]
    dsimp only
    have hBpos := shiftLeft20_pos batchSizeInMB hB
    rw [if_neg (by omega)]
    rw [downloadLoop_noErr _ _ _ (fun f t => by rw [hfetch f t]) 0]
    congr 1
    apply List.map_congr_left
    intro q hq
    rw [hfetch]
    rfl
  refine ⟨heq, ?_⟩
  rw [heq]
  unfold DownloadResult.sink
  dsimp only
  rw [List.map_map]
  have hmap : (chunkRanges contentLen (batchSizeInMB <<< 20) 0).map
      (Prod.snd ∘ fun r : Int × Int => (r.1, ([] : Bytes)))
      = (chunkRanges contentLen (batchSizeInMB <<< 20) 0).map (fun _ => ([] : Bytes)) :=
    List.map_congr_left (fun q _ => rfl)
  rw [hmap]
  induction chunkRanges contentLen (batchSizeInMB <<< 20) 0 with
  | nil => rfl
  | cons q l ih =>
    simp only [List.map_cons, List.flatten_cons, List.nil_append]
    exact ih

/-- Witness for C9 at `MaxRetry = 0` on a 5-byte resource with 1 MB
batches: no error is reported and the sink receives nothing. -/
theorem maxRetry_nonpos_silent_witness :
    (0 : Int) ≤ 0 ∧ checkHeaders (.ok ⟨some "bytes", some "5"⟩) = .ok 5 ∧ (0 : Int) < 1 ∧
    downloadChunkWithRetry 0 (fun _ => .error "x") = (none, none, 0) ∧
    DownloadResult.sink (downloadAndWrite (.ok ⟨some "bytes", some "5"⟩) 1 0
      (fun _ _ _ => .error "x")) = [] :=
  ⟨le_refl 0, rfl, by norm_num,
    (maxRetry_nonpos_silent 0 (le_refl 0)).1 (fun _ => .error "x"),
    ((maxRetry_nonpos_silent 0 (le_refl 0)).2 (.ok ⟨some "bytes", some "5"⟩) 5 1
      (fun _ _ _ => .error "x") rfl (by norm_num)).2⟩

/-- Claim C10: with a successful probe, `BatchSizeInMB = 0` makes
`downloadAndWrite` crash on the integer division by zero at the chunk
count computation (modelled by the `panicked` flag), while any positive
batch size never reaches that crash. -/
theorem batchSizeZero_divByZero (h : Except GoError HeadResponse)
    (contentLen maxRetry : Int) (oracle : Int → Int → Nat → Except GoError Bytes)
    (hprobe : checkHeaders h = .ok contentLen) :
    (downloadAndWrite h 0 maxRetry oracle).panicked = true ∧
    (∀ batchSizeInMB, 0 < batchSizeInMB →
      (downloadAndWrite h batchSizeInMB maxRetry oracle).panicked = false) := by
  constructor
  · unfold downloadAndWrite
    rw [hprobe]
    dsimp only
    rw [if_pos (by decide)]
  · intro batchSizeInMB hb
    unfold downloadAndWrite
    rw [hprobe]
    dsimp only
    have hBpos := shiftLeft20_pos batchSizeInMB hb
    rw [if_neg (by omega)]
    exact downloadLoop_no_crash _ _ _ 0

/-- Witness for C10 on a 5-byte resource: batch size 0 crashes; batch
size 16 does not. -/
theorem batchSizeZero_divByZero_witness :
    checkHeaders (.ok ⟨some "bytes", some "5"⟩) = .ok 5 ∧
    (downloadAndWrite (.ok ⟨some "bytes", some "5"⟩) 0 100
      (fun _ _ _ => .error "x")).panicked = true ∧
    (downloadAndWrite (.ok ⟨some "bytes", some "5"⟩) 16 100
      (fun _ _ _ => .error "x")).panicked = false :=
  ⟨rfl,
    (batchSizeZero_divByZero (.ok ⟨some "bytes", some "5"⟩) 5 100
      (fun _ _ _ => .error "x") rfl).1,
    (batchSizeZero_divByZero (.ok ⟨some "bytes", some "5"⟩) 5 100
      (fun _ _ _ => .error "x") rfl).2 16 (by norm_num)⟩

lemma exact_sink (body : Bytes) (B : Int) (hB : 0 < B) :
    DownloadResult.sink
      ⟨(chunkRanges (body.length : Int) B 0).map (fun r => (r.1, r.2 - 1)),
       (chunkRanges (body.length : Int) B 0).map
         (fun r => (r.1, sliceIncl body r.1 (r.2 - 1))),
       none, false⟩ = body := by
  unfold DownloadResult.sink
  dsimp only
  rw [List.map_map]
  have hmap : (chunkRanges (body.length : Int) B 0).map
      (Prod.snd ∘ fun r : Int × Int => (r.1, sliceIncl body r.1 (r.2 - 1)))
      = (chunkRanges (body.length : Int) B 0).map
          (fun r => sliceIncl body r.1 (r.2 - 1)) :=
    List.map_congr_left (fun r _ => rfl)
  rw [hmap, chunkRanges_slices_flatten body B hB 0 le_rfl]
  rfl

/-- Claim C2: when every chunk fetch returns exactly the requested range
of the resource body, `downloadAndWrite` reports no error and no crash,
its writes are exactly the planned chunks' slices in plan order (chunk K
fully written before chunk K+1 starts), the write offsets are strictly
ascending, and the sink receives precisely the `N = body.length` original
bytes; across the driver loop, all of one resource's bytes reach the sink
before the next resource's, so the run's sinks are the bodies in list
order. -/
theorem download_success_streams_body (h : Except GoError HeadResponse) (body : Bytes)
    (batchSizeInMB maxRetry : Int) (hB : 0 < batchSizeInMB) (hR : 1 ≤ maxRetry)
    (hprobe : checkHeaders h = .ok (body.length : Int)) :
    (downloadAndWrite h batchSizeInMB maxRetry (exactOracle body)).error = none ∧
    (downloadAndWrite h batchSizeInMB maxRetry (exactOracle body)).panicked = false ∧
    (downloadAndWrite h batchSizeInMB maxRetry (exactOracle body)).writes
      = (chunkRanges (body.length : Int) (batchSizeInMB <<< 20) 0).map
          (fun r => (r.1, sliceIncl body r.1 (r.2 - 1))) ∧
    DownloadResult.sink (downloadAndWrite h batchSizeInMB maxRetry (exactOracle body))
      = body ∧
    List.Chain' (fun a b : Int => a < b)
      ((downloadAndWrite h batchSizeInMB maxRetry (exactOracle body)).writes.map
        Prod.fst) ∧
    (∀ resources : List (Except GoError HeadResponse × Bytes),
      (∀ q ∈ resources, checkHeaders q.1 = .ok ((q.2).length : Int)) →
      (runAll batchSizeInMB maxRetry
          (resources.map (fun q => (q.1, exactOracle q.2)))).map DownloadResult.sink
        = resources.map (fun q => q.2)) := by
  have heq := downloadAndWrite_exact_eq h body batchSizeInMB maxRetry hB hR hprobe
  have hBpos := shiftLeft20_pos batchSizeInMB hB
  refine ⟨by rw [heq], by rw [heq], by rw [heq], ?_, ?_, ?_⟩
  · rw [heq]
    exact exact_sink body _ hBpos
  · rw [heq]
    dsimp only
    rw [List.map_map]
    have hmap : (chunkRanges (body.length : Int) (batchSizeInMB <<< 20) 0).map
        (Prod.fst ∘ fun r : Int × Int => (r.1, sliceIncl body r.1 (r.2 - 1)))
        = (chunkRanges (body.length : Int) (batchSizeInMB <<< 20) 0).map Prod.fst :=
      List.map_congr_left (fun r _ => rfl)
    rw [hmap, List.chain'_map]
    exact chunkRanges_fstChain _ _ 0
  · intro resources
    induction resources with
    | nil => intro _; rfl
    | cons q rest ih =>
      intro hres
      simp only [List.map_cons]
      rw [runAll]
      have hq := downloadAndWrite_exact_eq q.1 q.2 batchSizeInMB maxRetry hB hR
        (hres q (List.mem_cons_self _ _))
      rw [hq]
      dsimp only
      rw [if_neg (by simp)]
      simp only [List.map_cons]
      congr 1
      · exact exact_sink q.2 _ hBpos
      · exact ih (fun p hp => hres p (List.mem_cons_of_mem _ hp))

/-- Witness for C2: a 3-byte resource downloaded with 1 MB batches and
one allowed attempt delivers exactly the original bytes to the sink. -/
theorem download_success_streams_body_witness :
    (0 : Int) < 1 ∧ (1 : Int) ≤ 1 ∧
    checkHeaders (.ok ⟨some "bytes", some "3"⟩)
      = .ok (([10, 20, 30] : Bytes).length : Int) ∧
    DownloadResult.sink (downloadAndWrite (.ok ⟨some "bytes", some "3"⟩) 1 1
      (exactOracle [10, 20, 30])) = [10, 20, 30] :=
  ⟨by norm_num, le_refl 1, rfl,
    (download_success_streams_body (.ok ⟨some "bytes", some "3"⟩) [10, 20, 30] 1 1
      (by norm_num) (le_refl 1) rfl).2.2.2.1⟩

end Gocat
